import Mathlib

/-!
Verification of the trade-sonic market-streaming component.

This file shallowly embeds the Go sources under
`market-streaming/internal/stream` (crypto/streamer.go, stock/streamer.go,
models.go) and `market-streaming/cmd/streamer/main.go`.

Modelling conventions:
* Time instants are `Int` Unix seconds; timezones are integer offsets
  (seconds east of UTC).  `time.Time.After`/`Before` compare instants.
* Go `float64` trade payloads are carried opaquely (the streamer never
  computes with them), modelled as `Int`.
* Go strings sliced by byte index (`s[8:]`) are modelled as byte lists.
* The blocking read loop of `Streamer.Stream` is modelled as a function of
  an environment script: each element of the script is the outcome of the
  next `conn.ReadMessage` call (or an external `Close()` call), and each
  reconnection attempt's outcome (dial result, per-send `WriteMessage`
  results) is likewise scripted.  The function returns the trace of
  observable events (sleeps, connect attempts, subscribe messages sent,
  handler calls).  The crypto and stock `Stream` bodies have identical
  control flow (the crypto streamer additionally writes a `connected`
  Bool that is never read; it is omitted), so one embedding covers both.
* Handlers are identified by a `Nat` tag in registration order; a handler
  call is the trace event `Ev.call tag trade`.
-/

namespace TradeSonic

/-- models.go `Trade`: one trade record `{p, s, t, v}`.  The symbol is kept
as a byte list because `main.go` slices it by byte index. -/
structure Trade where
  price : Int
  symbol : List Nat
  timestamp : Int
  volume : Int
deriving DecidableEq

/-- models.go `TradeData`: the decoded envelope `{data, type}`. -/
structure TradeData where
  data : List Trade
  type : String
deriving DecidableEq

/-- The subscribe control message built by `Subscribe` for one symbol:
`{"type":"subscribe","symbol":"<sym>"}`. -/
def subscribeMsg (symbol : String) : String :=
  "\x7b\"type\":\"subscribe\",\"symbol\":\"" ++ symbol ++ "\"\x7d"

/-- `Streamer.Subscribe` (crypto/streamer.go:44-54, stock/streamer.go:70-87,
identical send loop): iterate the symbols in order; send the subscribe
message for each; on the first `WriteMessage` failure stop and return the
error for that symbol.  `sendFails i` scripts whether the i-th send fails
(the oracle is shifted on recursion so index 0 is always the next send).
Returns (messages actually sent, in order; error symbol if any). -/
def subscribeRun : List String → (Nat → Bool) → List String × Option String
  | [], _ => ([], none)
  | s :: rest, sendFails =>
    if sendFails 0 then ([], some s)
    else
      let p := subscribeRun rest (fun i => sendFails (i + 1))
      (subscribeMsg s :: p.1, p.2)

/-- Go `time.Time.Weekday` of the instant `t` viewed in a timezone of
offset `off` seconds: days since the epoch (1970-01-01 was a Thursday,
weekday 4; Sunday = 0, Saturday = 6). -/
def weekday (t off : Int) : Int :=
  ((t + off).ediv 86400 + 4).emod 7

/-- Seconds past local midnight of the instant `t` in a timezone of offset
`off`. -/
def secondsOfDay (t off : Int) : Int :=
  (t + off).emod 86400

/-- The instant denoted by `time.Date(Y, M, D, _, _, _, 0, loc)` where
`(Y, M, D)` is `t`'s civil date in the timezone of offset `off` and the
clock fields amount to `s` seconds past midnight. -/
def civilInstant (t off s : Int) : Int :=
  (t - secondsOfDay t off) + s

/-- stock/streamer.go:45-67 `IsTrading`: `false` on Saturday/Sunday (weekday
taken from the process-local clock, offset `localOff`); otherwise load
"America/New_York" (`etOff = none` models `LoadLocation` failing, in which
case return `false`); otherwise build the 09:30:00 and 16:00:00 instants of
the current Eastern civil day and return
`etNow.After(open) && etNow.Before(close)` (both comparisons strict). -/
def isTrading (t localOff : Int) (etOff : Option Int) : Bool :=
  if weekday t localOff = 6 ∨ weekday t localOff = 0 then false
  else
    match etOff with
    | none => false
    | some off =>
      let openT := civilInstant t off 34200
      let closeT := civilInstant t off 57600
      decide (openT < t) && decide (t < closeT)

/-- The advisory lines `Subscribe` logs when `IsTrading()` is false
(stock/streamer.go:71-76); nothing is logged when the market is open. -/
def stockSubscribeLogs (trading : Bool) : List String :=
  if trading then []
  else
    ["Warning: Stock market is currently closed. Regular trading hours are:",
     "Monday-Friday, 9:30 AM - 4:00 PM Eastern Time",
     "You may still connect to the stream but might not receive any data",
     ""]

/-- stock/streamer.go:70-87 `Subscribe`: consult `IsTrading` (for the
advisory log only), then run the send loop.  Returns
(advisory log lines, (messages sent, error symbol if any)). -/
def stockSubscribe (t localOff : Int) (etOff : Option Int)
    (symbols : List String) (sendFails : Nat → Bool) :
    List String × (List String × Option String) :=
  (stockSubscribeLogs (isTrading t localOff etOff), subscribeRun symbols sendFails)

/-- The mutable fields of a `Streamer` relevant to observable behaviour:
the subscription set and the handler registry (both set at construction /
via `AddHandler`; the crypto streamer's never-read `connected` flag is
omitted). -/
structure StreamerS where
  symbols : List String
  handlers : List Nat
deriving DecidableEq

/-- `Streamer.AddHandler`: append to the handler registry. -/
def addHandler (st : StreamerS) (h : Nat) : StreamerS :=
  { st with handlers := st.handlers ++ [h] }

/-- Observable events emitted by the stream loop. -/
inductive Ev where
  | sleep (seconds : Nat)
  | connAttempt (ok : Bool)
  | sent (msgs : List String)
  | call (h : Nat) (t : Trade)
  | skip
  | closed
deriving DecidableEq

/-- Scripted outcome of one reconnection attempt: the dial fails, or the
dial succeeds and the resubscription runs with the given per-send failure
oracle (all sends succeeding means the attempt succeeds). -/
inductive Attempt where
  | connFail
  | connOk (sendFails : Nat → Bool)

/-- Scripted outcome of one iteration of the outer read loop: an external
`Close()` call, a `ReadMessage` error (followed by the scripted
reconnection attempts), or a message (`none` models a payload on which
`json.Unmarshal` fails). -/
inductive ReadStep where
  | close
  | readErr (script : List Attempt)
  | readMsg (m : Option TradeData)

/-- The backoff update `backoff *= 2; if backoff > maxBackoff { backoff =
maxBackoff }` with `maxBackoff = 30` seconds. -/
def nextBackoff (b : Nat) : Nat :=
  if b * 2 > 30 then 30 else b * 2

/-- The inner reconnection loop (crypto/streamer.go:80-112,
stock/streamer.go:100-134): sleep `backoff`, double-and-cap it, dial; on
dial failure retry; on dial success resubscribe; on resubscription failure
close the socket and retry; on full success reset `backoff = 1` and break.
Returns the event trace and `some finalBackoff` when the loop exits
(`none` when the script is exhausted with the loop still running). -/
def reconnectRun (st : StreamerS) : List Attempt → Nat → List Ev × Option Nat
  | [], _ => ([], none)
  | a :: rest, b =>
    match a with
    | Attempt.connFail =>
      let p := reconnectRun st rest (nextBackoff b)
      (Ev.sleep b :: Ev.connAttempt false :: p.1, p.2)
    | Attempt.connOk sendFails =>
      let sub := subscribeRun st.symbols sendFails
      match sub.2 with
      | some _ =>
        let p := reconnectRun st rest (nextBackoff b)
        (Ev.sleep b :: Ev.connAttempt true :: Ev.sent sub.1 :: p.1, p.2)
      | none =>
        ([Ev.sleep b, Ev.connAttempt true, Ev.sent sub.1], some 1)

/-- The handler calls made for one trade record: every registered handler,
in registration order. -/
def dispatchRecord (handlers : List Nat) (r : Trade) : List Ev :=
  handlers.map (fun h => Ev.call h r)

/-- The handler calls made for a record list: records in array order, all
handlers per record (the nested `for` loops of `Stream`). -/
def dispatchRecords (handlers : List Nat) : List Trade → List Ev
  | [] => []
  | r :: rs => dispatchRecord handlers r ++ dispatchRecords handlers rs

/-- Message processing in `Stream` (crypto/streamer.go:124-131,
stock/streamer.go:144-150): only envelopes with `type == "trade"` dispatch
their records; every other type dispatches nothing. -/
def dispatch (handlers : List Nat) (td : TradeData) : List Ev :=
  if td.type = "trade" then dispatchRecords handlers td.data else []

/-- The outer read loop of `Streamer.Stream` (crypto/streamer.go:71-133,
stock/streamer.go:90-152), driven by a script: a `Close()` call only
closes the socket (the loop state is untouched and the loop continues —
nothing in `Stream` inspects closure); a read error runs the reconnection
loop, then continues reading with the backoff it returned; an undecodable
message is skipped; a decoded message is dispatched.  Returns the event
trace and the streamer state when the script is exhausted.  The loop body
has no return path, so the function only stops by exhausting the script. -/
def streamRun (st : StreamerS) : List ReadStep → Nat → List Ev × StreamerS
  | [], _ => ([], st)
  | step :: rest, b =>
    match step with
    | ReadStep.close =>
      let p := streamRun st rest b
      (Ev.closed :: p.1, p.2)
    | ReadStep.readMsg none =>
      let p := streamRun st rest b
      (Ev.skip :: p.1, p.2)
    | ReadStep.readMsg (some td) =>
      let p := streamRun st rest b
      (dispatch st.handlers td ++ p.1, p.2)
    | ReadStep.readErr script =>
      match reconnectRun st script b with
      | (evs, none) => (evs, st)
      | (evs, some b2) =>
        let p := streamRun st rest b2
        (evs ++ p.1, p.2)

/-- Whether an event is a connect attempt. -/
def isConnAttempt : Ev → Bool
  | Ev.connAttempt _ => true
  | _ => false

/-- Number of connect attempts in a trace. -/
def connAttempts (evs : List Ev) : Nat :=
  (evs.filter isConnAttempt).length

/-- Whether an event is the `Close()` marker. -/
def isClosedEv : Ev → Bool
  | Ev.closed => true
  | _ => false

/-- The part of a trace strictly after the first `Close()` marker. -/
def afterClose (evs : List Ev) : List Ev :=
  (evs.dropWhile (fun e => !(isClosedEv e))).drop 1

/-- The sleep durations of a trace, in order. -/
def sleeps (evs : List Ev) : List Nat :=
  evs.filterMap (fun e => match e with | Ev.sleep d => some d | _ => none)

/-- Whether a scripted reconnection attempt fails for a streamer with the
given subscription set (a dial failure, or a resubscription send error). -/
def attemptFails (symbols : List String) : Attempt → Bool
  | Attempt.connFail => true
  | Attempt.connOk sendFails => ((subscribeRun symbols sendFails).2).isSome

/-- Go string slicing `sym[8:]` on a byte string: the suffix from byte 8,
or a panic (modelled as `none`) when the string is shorter than 8 bytes. -/
def sliceFromEight (sym : List Nat) : Option (List Nat) :=
  if 8 ≤ sym.length then some (sym.drop 8) else none

/-- main.go:16-34 `createTradeHandler`: the symbol the returned handler
prints — for market type "crypto" it is unconditionally `trade.Symbol[8:]`
(intended to strip "BINANCE:", but applied to any symbol); for every other
market type the symbol is printed unchanged. -/
def displaySymbol (marketType : String) (tr : Trade) : Option (List Nat) :=
  if marketType = "crypto" then sliceFromEight tr.symbol else some tr.symbol

/-! ## Helper lemmas about `subscribeRun` -/

/-- When every send up to the length of the set succeeds, `Subscribe` sends
one message per symbol, in order, and returns no error. -/
theorem subscribeRun_success (symbols : List String) (sendFails : Nat → Bool)
    (h : ∀ j, j < symbols.length → sendFails j = false) :
    (subscribeRun symbols sendFails).1 = symbols.map subscribeMsg
    ∧ (subscribeRun symbols sendFails).2 = none := by
  induction symbols generalizing sendFails with
  | nil => simp [subscribeRun]
  | cons s rest ih =>
    have h0 : sendFails 0 = false := h 0 (by simp)
    have hr := ih (fun k => sendFails (k + 1))
      (fun j hj => h (j + 1) (by simpa using hj))
    simp [subscribeRun, h0, hr.1, hr.2]

/-- A `Subscribe` run that returns no error sent exactly the full message
sequence for the subscription set. -/
theorem subscribeRun_sent_of_ok (symbols : List String) (sendFails : Nat → Bool)
    (h : (subscribeRun symbols sendFails).2 = none) :
    (subscribeRun symbols sendFails).1 = symbols.map subscribeMsg := by
  induction symbols generalizing sendFails with
  | nil => simp [subscribeRun]
  | cons s rest ih =>
    by_cases h0 : sendFails 0
    · simp [subscribeRun, h0] at h
    · simp only [subscribeRun, h0, if_neg, Bool.false_eq_true, if_false] at h ⊢
      simp [ih _ h]

/-- When the first failing send is the one at index `i`, `Subscribe` sent
the messages for the first `i` symbols and returns the error for the
`i`-th symbol. -/
theorem subscribeRun_firstFail (symbols : List String) (sendFails : Nat → Bool) :
    ∀ i (hi : i < symbols.length), sendFails i = true →
    (∀ j, j < i → sendFails j = false) →
    (subscribeRun symbols sendFails).1 = (symbols.take i).map subscribeMsg
    ∧ (subscribeRun symbols sendFails).2 = some (symbols.get ⟨i, hi⟩) := by
  induction symbols generalizing sendFails with
  | nil => intro i hi; exact absurd hi (by simp)
  | cons s rest ih =>
    intro i hi hf hprev
    cases i with
    | zero => simp [subscribeRun, hf]
    | succ i =>
      have h0 : sendFails 0 = false := hprev 0 (Nat.succ_pos _)
      have hr := ih (fun k => sendFails (k + 1)) i (by simpa using hi) hf
        (fun j hj => hprev (j + 1) (by omega))
      simp [subscribeRun, h0, hr.1, hr.2]

/-! ## Claim theorems: the session gate and the display handler -/

/-- C5 counterexample: at the instant 484200 (Tuesday 1970-01-06, exactly
09:30:00 Eastern, with the process clock also in EST, offset -18000), the
weekday is Tuesday and the Eastern civil time is exactly 09:30:00, yet
`IsTrading` returns `false` — the claim requires `true` at exactly
09:30:00 Eastern on a weekday. -/
theorem c5_session_counterexample :
    weekday 484200 (-18000) = 2
    ∧ secondsOfDay 484200 (-18000) = 34200
    ∧ isTrading 484200 (-18000) (some (-18000)) = false := by decide

/-- C5 (amended): `IsTrading` returns `false` whenever the process-local
weekday is Saturday or Sunday, independent of time-of-day; on every other
instant it returns `true` iff the Eastern civil time is strictly between
09:30:00 and 16:00:00 (`(09:30, 16:00)`, both endpoints excluded: the
comparisons `After`/`Before` are strict, so exactly 09:30:00 yields
`false`, as does exactly 16:00:00). -/
theorem c5_session_amended (t localOff etOff : Int) :
    ((weekday t localOff = 6 ∨ weekday t localOff = 0) →
      isTrading t localOff (some etOff) = false)
    ∧ (¬(weekday t localOff = 6 ∨ weekday t localOff = 0) →
      (isTrading t localOff (some etOff) = true ↔
        (34200 < secondsOfDay t etOff ∧ secondsOfDay t etOff < 57600))) := by
  constructor
  · intro h
    simp [isTrading, h]
  · intro h
    rw [isTrading, if_neg h]
    simp only [civilInstant, Bool.and_eq_true, decide_eq_true_iff]
    omega

/-- C5 witness: Tuesday 1970-01-06 at 10:00:00 Eastern (instant 486000,
process clock in EST) is not a weekend and lies strictly inside the
session, so `IsTrading` returns `true`. -/
theorem c5_session_witness :
    isTrading 486000 (-18000) (some (-18000)) = true := by
  have h := (c5_session_amended 486000 (-18000) (-18000)).2 (by decide)
  exact h.mpr (by decide)

/-- C10: when loading "America/New_York" fails, `IsTrading` returns
`false` for every instant (in particular every weekday instant) — the
error is not propagated; the only failure mode is a conservative
"closed" answer. -/
theorem c10_tzfail_spec (t localOff : Int) :
    isTrading t localOff none = false := by
  unfold isTrading
  split <;> rfl

/-- C8: the market-session check never alters the stock streamer's
`Subscribe` behaviour: for any two instants (and even any two timezone
databases), the messages sent and the returned result are identical; the
`IsTrading` value feeds only the advisory log lines. -/
theorem c8_gate_spec (t1 t2 localOff1 localOff2 : Int)
    (etOff1 etOff2 : Option Int) (symbols : List String)
    (sendFails : Nat → Bool) :
    (stockSubscribe t1 localOff1 etOff1 symbols sendFails).2
      = (stockSubscribe t2 localOff2 etOff2 symbols sendFails).2
    ∧ (stockSubscribe t1 localOff1 etOff1 symbols sendFails).1
      = stockSubscribeLogs (isTrading t1 localOff1 etOff1) :=
  ⟨rfl, rfl⟩

/-- C9: the handler from `createTradeHandler("crypto")` unconditionally
slices the first 8 bytes off the trade's symbol: any symbol of at least 8
bytes (whatever those bytes are) is printed with its first 8 bytes
dropped, and any shorter symbol makes the slice panic. -/
theorem c9_slice_spec (tr : Trade) :
    (8 ≤ tr.symbol.length →
      displaySymbol "crypto" tr = some (tr.symbol.drop 8))
    ∧ (tr.symbol.length < 8 → displaySymbol "crypto" tr = none) := by
  constructor
  · intro h
    simp [displaySymbol, sliceFromEight, h]
  · intro h
    rw [displaySymbol, if_pos rfl, sliceFromEight, if_neg (by omega)]

/-- C9 witness: the 13-byte symbol "KRAKEN:XBTUSD" (not prefixed by
"BINANCE:") is printed as "BTUSD" (first 8 bytes dropped regardless), and
the 3-byte symbol "BTC" panics. -/
theorem c9_slice_witness :
    displaySymbol "crypto" ⟨1, [75, 82, 65, 75, 69, 78, 58, 88, 66, 84, 85, 83, 68], 0, 1⟩
      = some [66, 84, 85, 83, 68]
    ∧ displaySymbol "crypto" ⟨1, [66, 84, 67], 0, 1⟩ = none := by
  constructor
  · have h := (c9_slice_spec
      ⟨1, [75, 82, 65, 75, 69, 78, 58, 88, 66, 84, 85, 83, 68], 0, 1⟩).1 (by decide)
    exact h.trans (by decide)
  · exact (c9_slice_spec ⟨1, [66, 84, 67], 0, 1⟩).2 (by decide)

/-- C7: `Subscribe` sends exactly one message per identifier, in set
order, stopping at the first send failure and returning that symbol's
error (messages before the failure stay sent, nothing after is sent,
nothing is rolled back); with no send failure it sends everything and
returns no error. -/
theorem c7_subscribe_spec (symbols : List String) (sendFails : Nat → Bool) :
    (∀ i (hi : i < symbols.length), sendFails i = true →
      (∀ j, j < i → sendFails j = false) →
      (subscribeRun symbols sendFails).1 = (symbols.take i).map subscribeMsg
      ∧ (subscribeRun symbols sendFails).2 = some (symbols.get ⟨i, hi⟩))
    ∧ ((∀ j, j < symbols.length → sendFails j = false) →
      (subscribeRun symbols sendFails).1 = symbols.map subscribeMsg
      ∧ (subscribeRun symbols sendFails).2 = none) :=
  ⟨subscribeRun_firstFail symbols sendFails,
   subscribeRun_success symbols sendFails⟩

/-- C7 witness: subscribing to AAPL, MSFT, GOOGL when the second send
fails sends only the AAPL message and reports the MSFT error; with no
failures all three messages go out and no error is returned. -/
theorem c7_subscribe_witness :
    (subscribeRun ["AAPL", "MSFT", "GOOGL"] (fun i => decide (i = 1))).1
      = [subscribeMsg "AAPL"]
    ∧ (subscribeRun ["AAPL", "MSFT", "GOOGL"] (fun i => decide (i = 1))).2
      = some "MSFT"
    ∧ (subscribeRun ["AAPL", "MSFT", "GOOGL"] (fun _ => false)).2 = none := by
  have h := (c7_subscribe_spec ["AAPL", "MSFT", "GOOGL"]
      (fun i => decide (i = 1))).1 1 (by decide) (by decide)
      (fun j hj => by
        have : j = 0 := by omega
        subst this; rfl)
  have h2 := (c7_subscribe_spec ["AAPL", "MSFT", "GOOGL"]
      (fun _ => false)).2 (fun j _ => rfl)
  exact ⟨h.1.trans (by simp), h.2.trans (by simp), h2.2⟩

/-! ## Backoff (C2) -/

/-- The double-and-cap update is `min (b * 2) 30`. -/
theorem nextBackoff_eq_min (b : Nat) : nextBackoff b = min (b * 2) 30 := by
  unfold nextBackoff
  split <;> omega

/-- One step of the capped-doubling recurrence matches the closed form
`min (b * 2 ^ i) 30`. -/
theorem min_pow_step (b i : Nat) :
    min (b * 2 ^ (i + 1)) 30 = min (min (b * 2) 30 * 2 ^ i) 30 := by
  have hpow : 0 < 2 ^ i := pow_pos (by norm_num) i
  have hsucc : b * 2 ^ (i + 1) = b * 2 * 2 ^ i := by ring
  rcases Nat.le_total (b * 2) 30 with h | h
  · rw [Nat.min_eq_left h, hsucc]
  · have h30 : 30 ≤ 30 * 2 ^ i := Nat.le_mul_of_pos_right 30 hpow
    have hb2 : 30 * 2 ^ i ≤ b * 2 * 2 ^ i := Nat.mul_le_mul_right _ h
    have hle : 30 ≤ b * 2 ^ (i + 1) := by rw [hsucc]; exact le_trans h30 hb2
    rw [Nat.min_eq_right h, Nat.min_eq_right hle, Nat.min_eq_right h30]

/-- Prepending the current delay to the continuation's closed-form delay
list gives the closed form one step earlier. -/
theorem streak_delay_cons (b : Nat) (hb : b ≤ 30) (n : Nat) :
    b :: (List.range n).map (fun i => min (nextBackoff b * 2 ^ i) 30)
      = (List.range (n + 1)).map (fun i => min (b * 2 ^ i) 30) := by
  rw [List.range_succ_eq_map, List.map_cons, List.map_map]
  congr 1
  · simp [Nat.min_eq_left hb]
  · congr 1
    funext i
    show min (nextBackoff b * 2 ^ i) 30 = min (b * 2 ^ (i + 1)) 30
    rw [nextBackoff_eq_min]
    exact (min_pow_step b i).symm

/-- The double-and-cap update never exceeds the 30-second ceiling. -/
theorem nextBackoff_le (b : Nat) : nextBackoff b ≤ 30 := by
  unfold nextBackoff
  split <;> omega

/-- Generalized streak lemma: starting the reconnection loop at any
backoff `b ≤ 30`, a streak of failing attempts followed by one fully
successful attempt sleeps `min (b * 2 ^ i) 30` before the `i`-th attempt
and exits with the backoff reset to 1. -/
theorem reconnect_streak (st : StreamerS) :
    ∀ (s : List Attempt) (a : Attempt) (b : Nat), b ≤ 30 →
    (∀ x ∈ s, attemptFails st.symbols x = true) →
    attemptFails st.symbols a = false →
    sleeps (reconnectRun st (s ++ [a]) b).1
      = (List.range (s.length + 1)).map (fun i => min (b * 2 ^ i) 30)
    ∧ (reconnectRun st (s ++ [a]) b).2 = some 1 := by
  intro s
  induction s with
  | nil =>
    intro a b hb _ ha
    cases a with
    | connFail => simp [attemptFails] at ha
    | connOk f =>
      have hnone : (subscribeRun st.symbols f).2 = none := by
        simpa [attemptFails, Option.isSome_iff_exists] using ha
      have hr1 : List.range 1 = [0] := rfl
      simp [reconnectRun, hnone, sleeps, hr1, Nat.min_eq_left hb]
  | cons x s ih =>
    intro a b hb hs ha
    have hx := hs x (List.mem_cons_self x s)
    have hrest : ∀ y ∈ s, attemptFails st.symbols y = true :=
      fun y hy => hs y (List.mem_cons_of_mem x hy)
    obtain ⟨ih1, ih2⟩ := ih a (nextBackoff b) (nextBackoff_le b) hrest ha
    cases x with
    | connFail =>
      refine ⟨?_, by simpa [reconnectRun] using ih2⟩
      simp only [List.cons_append, reconnectRun, sleeps, List.filterMap_cons]
      show b :: sleeps (reconnectRun st (s ++ [a]) (nextBackoff b)).1
          = (List.range (s.length + 1 + 1)).map (fun i => min (b * 2 ^ i) 30)
      rw [ih1]
      exact streak_delay_cons b hb (s.length + 1)
    | connOk f =>
      obtain ⟨v, hv⟩ : ∃ v, (subscribeRun st.symbols f).2 = some v := by
        simpa [attemptFails, Option.isSome_iff_exists] using hx
      refine ⟨?_, by simpa [reconnectRun, hv] using ih2⟩
      simp only [List.cons_append, reconnectRun, hv, sleeps, List.filterMap_cons]
      show b :: sleeps (reconnectRun st (s ++ [a]) (nextBackoff b)).1
          = (List.range (s.length + 1 + 1)).map (fun i => min (b * 2 ^ i) 30)
      rw [ih1]
      exact streak_delay_cons b hb (s.length + 1)

/-- C2: starting from the initial 1-second backoff, a maximal streak of
`k` failing reconnection attempts (dial failures or resubscription
failures) followed by the first fully successful attempt sleeps
`min (2 ^ i) 30` seconds before the `i`-th attempt — i.e. 1, 2, 4, 8, 16,
then 30 capped thereafter, with no attempt limit — and the loop exits
with the backoff reset to 1, so the next failure streak again starts at
1 second. -/
theorem c2_backoff_spec (st : StreamerS) (s : List Attempt) (a : Attempt)
    (hs : ∀ x ∈ s, attemptFails st.symbols x = true)
    (ha : attemptFails st.symbols a = false) :
    sleeps (reconnectRun st (s ++ [a]) 1).1
      = (List.range (s.length + 1)).map (fun i => min (2 ^ i) 30)
    ∧ (reconnectRun st (s ++ [a]) 1).2 = some 1 := by
  obtain ⟨h1, h2⟩ := reconnect_streak st s a 1 (by omega) hs ha
  refine ⟨h1.trans ?_, h2⟩
  simp

/-- C2 witness: six consecutive dial failures followed by a successful
reconnect sleep 1, 2, 4, 8, 16, 30, 30 seconds and reset the backoff
to 1. -/
theorem c2_backoff_witness :
    sleeps (reconnectRun ⟨["BINANCE:BTCUSDT"], [0]⟩
        (List.replicate 6 Attempt.connFail ++ [Attempt.connOk (fun _ => false)]) 1).1
      = [1, 2, 4, 8, 16, 30, 30]
    ∧ (reconnectRun ⟨["BINANCE:BTCUSDT"], [0]⟩
        (List.replicate 6 Attempt.connFail ++ [Attempt.connOk (fun _ => false)]) 1).2
      = some 1 := by
  have h := c2_backoff_spec ⟨["BINANCE:BTCUSDT"], [0]⟩
      (List.replicate 6 Attempt.connFail) (Attempt.connOk (fun _ => false))
      (fun x hx => by rw [List.eq_of_mem_replicate hx]; rfl)
      rfl
  refine ⟨h.1.trans ?_, h.2⟩
  decide

/-! ## Dispatch (C3, C6) -/

/-- A frame with N records dispatched to M handlers yields exactly N*M
handler calls. -/
theorem dispatchRecords_length (handlers : List Nat) (rs : List Trade) :
    (dispatchRecords handlers rs).length = rs.length * handlers.length := by
  induction rs with
  | nil => simp [dispatchRecords]
  | cons r rs ih =>
    simp [dispatchRecords, dispatchRecord, ih]
    ring

/-- The call at position `i * M + j` of the dispatch sequence is handler
`j` applied to record `i`: records advance in array order and, within a
record, handlers in registration order. -/
theorem dispatchRecords_get (handlers : List Nat) (rs : List Trade) :
    ∀ i j (hi : i < rs.length) (hj : j < handlers.length),
    (dispatchRecords handlers rs)[i * handlers.length + j]?
      = some (Ev.call (handlers.get ⟨j, hj⟩) (rs.get ⟨i, hi⟩)) := by
  induction rs with
  | nil => intro i j hi; exact absurd hi (by simp)
  | cons r rs ih =>
    intro i j hi hj
    cases i with
    | zero =>
      show (dispatchRecord handlers r ++ dispatchRecords handlers rs)[0 * handlers.length + j]?
          = some (Ev.call (handlers.get ⟨j, hj⟩) r)
      rw [Nat.zero_mul, Nat.zero_add,
        List.getElem?_append_left (by simpa [dispatchRecord] using hj)]
      simp [dispatchRecord, List.getElem?_eq_getElem hj]
    | succ i =>
      show (dispatchRecord handlers r ++ dispatchRecords handlers rs)[(i + 1) * handlers.length + j]?
          = some (Ev.call (handlers.get ⟨j, hj⟩) (rs.get ⟨i, by simpa using hi⟩))
      rw [show (i + 1) * handlers.length + j
          = (dispatchRecord handlers r).length + (i * handlers.length + j) by
            simp [dispatchRecord]; ring,
        List.getElem?_append_right (by omega)]
      simpa using ih i j (by simpa using hi) hj

/-- A record dispatched to a registered handler occurs in the dispatch
sequence. -/
theorem mem_dispatchRecords (handlers : List Nat) (rs : List Trade)
    (h : Nat) (hh : h ∈ handlers) (r : Trade) (hr : r ∈ rs) :
    Ev.call h r ∈ dispatchRecords handlers rs := by
  induction rs with
  | nil => simp at hr
  | cons x rs ih =>
    rcases List.mem_cons.mp hr with rfl | hr
    · exact List.mem_append_left _ (List.mem_map_of_mem _ hh)
    · exact List.mem_append_right _ (ih hr)

/-- C3: a decoded envelope of type "trade" with records `r1..rN` and
registered handlers `h1..hM` produces exactly `N*M` handler calls before
the next read — the trace continues with the rest of the loop only after
the whole dispatch block — ordered records-outer, handlers-inner: the
call at position `i*M + j` is handler `j` applied to record `i`; an
envelope of any other type produces zero handler calls. -/
theorem c3_dispatch_spec (st : StreamerS) (td : TradeData)
    (rest : List ReadStep) (b : Nat) :
    (td.type = "trade" →
      (streamRun st (ReadStep.readMsg (some td) :: rest) b).1
        = dispatchRecords st.handlers td.data ++ (streamRun st rest b).1
      ∧ (dispatchRecords st.handlers td.data).length
          = td.data.length * st.handlers.length
      ∧ ∀ i j (hi : i < td.data.length) (hj : j < st.handlers.length),
          (dispatchRecords st.handlers td.data)[i * st.handlers.length + j]?
            = some (Ev.call (st.handlers.get ⟨j, hj⟩) (td.data.get ⟨i, hi⟩)))
    ∧ (td.type ≠ "trade" →
      (streamRun st (ReadStep.readMsg (some td) :: rest) b).1
        = (streamRun st rest b).1) := by
  constructor
  · intro h
    exact ⟨by simp [streamRun, dispatch, h],
      dispatchRecords_length _ _, dispatchRecords_get _ _⟩
  · intro h
    simp [streamRun, dispatch, h]

/-- C3 witness: two handlers (tags 7 and 8) and a "trade" frame with two
records yield the call sequence h7(rA), h8(rA), h7(rB), h8(rB); a "ping"
frame with a record yields no calls. -/
theorem c3_dispatch_witness :
    (streamRun ⟨[], [7, 8]⟩
        [ReadStep.readMsg (some ⟨[⟨1, [65], 0, 2⟩, ⟨3, [66], 0, 4⟩], "trade"⟩)] 1).1
      = [Ev.call 7 ⟨1, [65], 0, 2⟩, Ev.call 8 ⟨1, [65], 0, 2⟩,
         Ev.call 7 ⟨3, [66], 0, 4⟩, Ev.call 8 ⟨3, [66], 0, 4⟩]
    ∧ (streamRun ⟨[], [7, 8]⟩
        [ReadStep.readMsg (some ⟨[⟨1, [65], 0, 2⟩], "ping"⟩)] 1).1 = [] := by
  have h1 := (c3_dispatch_spec ⟨[], [7, 8]⟩
      ⟨[⟨1, [65], 0, 2⟩, ⟨3, [66], 0, 4⟩], "trade"⟩ [] 1).1 rfl
  have h2 := (c3_dispatch_spec ⟨[], [7, 8]⟩
      ⟨[⟨1, [65], 0, 2⟩], "ping"⟩ [] 1).2 (by decide)
  exact ⟨h1.1.trans (by decide), h2.trans rfl⟩

/-- C6: a message on which JSON decoding fails never stops the read loop:
it is skipped and the loop proceeds, so a malformed message followed by a
valid "trade" message still delivers every record of the valid message to
every registered handler. -/
theorem c6_malformed_spec (st : StreamerS) (td : TradeData)
    (rest : List ReadStep) (b : Nat) (h : td.type = "trade") :
    (streamRun st (ReadStep.readMsg none :: ReadStep.readMsg (some td) :: rest) b).1
      = Ev.skip :: (dispatchRecords st.handlers td.data ++ (streamRun st rest b).1)
    ∧ ∀ hh ∈ st.handlers, ∀ r ∈ td.data,
        Ev.call hh r
          ∈ (streamRun st (ReadStep.readMsg none :: ReadStep.readMsg (some td) :: rest) b).1 := by
  have htrace :
      (streamRun st (ReadStep.readMsg none :: ReadStep.readMsg (some td) :: rest) b).1
        = Ev.skip :: (dispatchRecords st.handlers td.data ++ (streamRun st rest b).1) := by
    simp [streamRun, dispatch, h]
  refine ⟨htrace, fun hh hmem r hr => ?_⟩
  rw [htrace]
  exact List.mem_cons_of_mem _
    (List.mem_append_left _ (mem_dispatchRecords _ _ _ hmem _ hr))

/-- C6 witness: a malformed message followed by a valid one-record trade
frame still produces the handler call, and the call is in the trace. -/
theorem c6_malformed_witness :
    (streamRun ⟨[], [7]⟩
        [ReadStep.readMsg none, ReadStep.readMsg (some ⟨[⟨9, [88], 5, 6⟩], "trade"⟩)] 1).1
      = [Ev.skip, Ev.call 7 ⟨9, [88], 5, 6⟩]
    ∧ Ev.call 7 ⟨9, [88], 5, 6⟩
        ∈ (streamRun ⟨[], [7]⟩
            [ReadStep.readMsg none, ReadStep.readMsg (some ⟨[⟨9, [88], 5, 6⟩], "trade"⟩)] 1).1 := by
  have h := c6_malformed_spec ⟨[], [7]⟩ ⟨[⟨9, [88], 5, 6⟩], "trade"⟩ [] 1 rfl
  exact ⟨h.1.trans (by decide),
    h.2 7 (by decide) ⟨9, [88], 5, 6⟩ (by decide)⟩

/-! ## Subscription-set immutability and resubscription (C4) -/

/-- The read loop never changes the streamer state: the subscription set
(and the handler registry) it finishes with is the one it started with. -/
theorem streamRun_state (st : StreamerS) :
    ∀ (script : List ReadStep) (b : Nat), (streamRun st script b).2 = st := by
  intro script
  induction script with
  | nil => intro b; rfl
  | cons step rest ih =>
    intro b
    cases step with
    | close => simpa [streamRun] using ih b
    | readMsg m => cases m <;> simpa [streamRun] using ih b
    | readErr s =>
      simp only [streamRun]
      rcases hr : reconnectRun st s b with ⟨evs, ob⟩
      cases ob with
      | none => rfl
      | some b2 => simpa using ih b2

/-- Whenever the reconnection loop completes, the last thing it did was
send the full subscription sequence for the streamer's (unchanged)
symbol set. -/
theorem reconnectRun_last_sent (st : StreamerS) :
    ∀ (s : List Attempt) (b : Nat), ((reconnectRun st s b).2).isSome →
    (reconnectRun st s b).1.getLast?
      = some (Ev.sent (st.symbols.map subscribeMsg)) := by
  intro s
  induction s with
  | nil => intro b h; simp [reconnectRun] at h
  | cons a rest ih =>
    intro b h
    cases a with
    | connFail =>
      simp only [reconnectRun] at h
      have hih := ih (nextBackoff b) h
      show ([Ev.sleep b, Ev.connAttempt false]
          ++ (reconnectRun st rest (nextBackoff b)).1).getLast? = _
      rw [List.getLast?_append, hih]
      rfl
    | connOk f =>
      rcases hv : (subscribeRun st.symbols f).2 with _ | v
      · simp only [reconnectRun, hv]
        rw [subscribeRun_sent_of_ok st.symbols f hv]
        rfl
      · simp only [reconnectRun, hv] at h ⊢
        have hih := ih (nextBackoff b) h
        show ([Ev.sleep b, Ev.connAttempt true, Ev.sent (subscribeRun st.symbols f).1]
            ++ (reconnectRun st rest (nextBackoff b)).1).getLast? = _
        rw [List.getLast?_append, hih]
        rfl

/-- C4: any two error-free `Subscribe` runs over the same subscription set
send identical message sequences — the full set, one message per symbol,
in set order — so the sequence sent after any completed reconnect equals
the one sent at first connect (the reconnection loop's last action on
completion is sending exactly that sequence); and no streamer operation
mutates the subscription set: the read loop returns the state it started
with, and `AddHandler` leaves the symbols untouched. -/
theorem c4_resubscribe_spec (st : StreamerS) (f g : Nat → Bool) (h : Nat)
    (script : List ReadStep) (b : Nat)
    (hf : (subscribeRun st.symbols f).2 = none)
    (hg : (subscribeRun st.symbols g).2 = none) :
    (subscribeRun st.symbols f).1 = (subscribeRun st.symbols g).1
    ∧ (subscribeRun st.symbols f).1 = st.symbols.map subscribeMsg
    ∧ (∀ (s : List Attempt) (b' : Nat), ((reconnectRun st s b').2).isSome →
        (reconnectRun st s b').1.getLast?
          = some (Ev.sent (st.symbols.map subscribeMsg)))
    ∧ (streamRun st script b).2 = st
    ∧ (addHandler st h).symbols = st.symbols := by
  have h1 := subscribeRun_sent_of_ok st.symbols f hf
  have h2 := subscribeRun_sent_of_ok st.symbols g hg
  exact ⟨h1.trans h2.symm, h1, reconnectRun_last_sent st,
    streamRun_state st script b, rfl⟩

/-- C4 witness: with the two-symbol set AAPL, MSFT and two different (but
error-free) send oracles, both runs send the same full sequence, and a
read-loop run leaves the state unchanged. -/
theorem c4_resubscribe_witness :
    (subscribeRun ["AAPL", "MSFT"] (fun _ => false)).1
      = ["AAPL", "MSFT"].map subscribeMsg
    ∧ (streamRun ⟨["AAPL", "MSFT"], []⟩ [ReadStep.close] 1).2
      = (⟨["AAPL", "MSFT"], []⟩ : StreamerS) := by
  have h := c4_resubscribe_spec ⟨["AAPL", "MSFT"], []⟩
      (fun _ => false) (fun _ => false) 0 [ReadStep.close] 1 rfl rfl
  exact ⟨h.2.1, h.2.2.2.1⟩

/-! ## Close and the read loop (C1) -/

/-- Connect-attempt counting distributes over trace concatenation. -/
theorem connAttempts_append (xs ys : List Ev) :
    connAttempts (xs ++ ys) = connAttempts xs + connAttempts ys := by
  simp [connAttempts, List.filter_append]

/-- A nonempty reconnection script makes at least one connect attempt. -/
theorem reconnectRun_connAttempt_pos (st : StreamerS) (a : Attempt)
    (s : List Attempt) (b : Nat) :
    0 < connAttempts (reconnectRun st (a :: s) b).1 := by
  cases a with
  | connFail =>
    simp [reconnectRun, connAttempts, List.filter_cons, isConnAttempt]
  | connOk f =>
    rcases hv : (subscribeRun st.symbols f).2 with _ | v <;>
      simp [reconnectRun, hv, connAttempts, List.filter_cons, isConnAttempt]

/-- Dropping up to and including the `Close()` marker at the head of a
trace leaves the tail. -/
theorem afterClose_closed_cons (t : List Ev) :
    afterClose (Ev.closed :: t) = t := by
  simp [afterClose, List.dropWhile, isClosedEv]

/-- C1 counterexample: run the read loop of a streamer; `Close()` is
invoked (closing the socket), the next read on the closed socket fails,
the first redial fails and the second succeeds.  Two connect attempts
occur after `Close()` returned — the claim requires zero. -/
theorem c1_close_counterexample :
    0 < connAttempts (afterClose
      (streamRun ⟨["BINANCE:BTCUSDT"], [0]⟩
        [ReadStep.close,
         ReadStep.readErr [Attempt.connFail, Attempt.connOk (fun _ => false)]]
        1).1) := by decide

/-- C1 (amended): `Close()` only closes the websocket; nothing in the read
loop observes closure and the loop body has no return path, so the read
loop does not exit on `Close()` — instead, once the closed connection
produces a read error, the loop enters the reconnection protocol: at
least one connect attempt occurs after `Close()` whenever at least one
reconnection attempt is scripted. -/
theorem c1_close_amended (st : StreamerS) (a : Attempt) (s : List Attempt)
    (rest : List ReadStep) (b : Nat) :
    0 < connAttempts (afterClose
      (streamRun st (ReadStep.close :: ReadStep.readErr (a :: s) :: rest) b).1) := by
  have h1 : (streamRun st (ReadStep.close :: ReadStep.readErr (a :: s) :: rest) b).1
      = Ev.closed :: (streamRun st (ReadStep.readErr (a :: s) :: rest) b).1 := by
    simp [streamRun]
  rw [h1, afterClose_closed_cons]
  have hpos := reconnectRun_connAttempt_pos st a s b
  simp only [streamRun]
  rcases hr : reconnectRun st (a :: s) b with ⟨evs, ob⟩
  rw [hr] at hpos
  cases ob with
  | none => simpa using hpos
  | some b2 =>
    have hpos2 : 0 < connAttempts evs := hpos
    simp only [connAttempts_append]
    omega

end TradeSonic
